import Mathlib

/-!
Shallow embedding of `static_allocator.cpp` and `shared_allocator.cpp`
(repository Micrified/static_allocator).

Modelling conventions:
* Addresses are byte offsets from the start of the managed buffer
  (`static_memory_map`); hence `static_addr_start` is offset `0` and a
  pointer argument is `Option Nat`, with `none` playing the role of
  `nullptr`.
* `sizeof(block_h) = 32` and `sizeof(allocator_info_t) = 40` (LP64
  platform: `block_h` is a union of a 16-byte struct with `max_align_t`,
  which has size 32 under gcc/clang on x86-64; the info struct is five
  8-byte fields).
* The byte buffer is modelled as a total map from byte offsets to
  `block_h` values, because the allocator only ever reads and writes
  whole block headers.  `block_h *` arithmetic `b + k` becomes
  `b + k * unit_size` on byte offsets.
* C++ exceptions are modelled by the `threw` outcome carrying the
  (unmodified) state, a `NULL` result by `none`, a dereference of a null
  pointer (undefined behaviour) by `crash`, and the unbounded `for`
  loops take explicit fuel, their non-termination surfacing as
  `diverge`.
* A null `d_allocator_info_p` (an allocator handle whose information
  pointer was never installed) is modelled by `Option allocator_info_t`
  at the wrapper level; a constructed arena always has
  `static_memory_map` equal to the buffer itself, so the separate
  `static_memory_map == nullptr` tests of the source collapse to the
  same `none` case.
-/

namespace StaticAllocator

/-- Size in bytes of `block_h` (`sizeof(block_h)`), the allocation unit. -/
def unit_size : Nat := 32

/-- Size in bytes of `allocator_info_t` (`sizeof(allocator_info_t)`). -/
def info_size : Nat := 40

/-- `sizeof(allocator_info_t) + 2 * sizeof(block_h)`, the constructor's
minimum capacity. -/
def minimum_memory_size : Nat := info_size + 2 * unit_size

/-- Byte offset of `free_memory_map`: the constructor sets it to
`static_memory_map + minimum_memory_size - 2 * sizeof(block_h)`,
i.e. offset `info_size = 40`. -/
def free_memory_map : Nat := info_size

/-- The `block_h` header: next element of the linked list (a byte offset)
and size in units of `sizeof(block_h)`. -/
structure block_h where
  next : Nat
  size : Nat
  deriving DecidableEq, Repr

/-- Write one block header into the buffer at byte offset `a`. -/
def update (m : Nat → block_h) (a : Nat) (v : block_h) : Nat → block_h :=
  fun x => if x = a then v else m x

/-- The `allocator_info_t` structure installed at the front of the
buffer, together with the buffer contents `mem` it is embedded in.
`free_list = none` models a null `free_list` pointer.  The
`static_memory_map` field is the buffer base itself (offset 0) and the
`free_memory_map` field is the constant offset 40; neither is repeated
here. -/
structure allocator_info_t where
  capacity : Nat
  free_size : Nat
  free_list : Option Nat
  mem : Nat → block_h

/-- Error values: the distinct `std::invalid_argument` /
`std::runtime_error` / `std::bad_alloc` throws of the source. -/
inductive Err where
  | uninit
  | zeroBytes
  | nullFree
  | outOfBounds
  | bad_alloc
  deriving DecidableEq, Repr

/-- Outcome of a state-mutating allocator call. -/
inductive AResult (α : Type) where
  | ok (val : α) (s : allocator_info_t)
  | threw (e : Err) (s : allocator_info_t)
  | crash
  | diverge

/-- The `Static_Allocator` constructor over a buffer whose previous
contents are `mem0` (the constructor never touches the bytes past the
info header, so they stay arbitrary). -/
def Static_Allocator_ctor (mem0 : Nat → block_h) (capacity : Nat) :
    Except Err allocator_info_t :=
  if capacity < minimum_memory_size then .error .bad_alloc
  else .ok { capacity := capacity
             free_size := capacity - minimum_memory_size
             free_list := none
             mem := mem0 }

/-- `n_blocks = (n_bytes + unit_size - 1) / unit_size + 1` of
`allocate_b`. -/
def n_blocks_of (n_bytes : Nat) : Nat :=
  (n_bytes + unit_size - 1) / unit_size + 1

/-- Result of the first-fit search loop of `allocate_b`: on success the
mutated buffer, the new `free_list` head (`last`) and the returned
pointer; `nofit` is the wrap-around `NULL` return. -/
inductive FitResult where
  | found (mem : Nat → block_h) (fl : Nat) (ptr : Nat)
  | nofit
  | fuelOut

/-- The first-fit search loop of `allocate_b`.  `head` is the value of
`d_allocator_info_p->free_list` during the walk (it is not modified
until a block is found). -/
def findFit (mem : Nat → block_h) (head n_blocks : Nat) :
    Nat → Nat → Nat → FitResult
  | 0, _, _ => .fuelOut
  | fuel + 1, last, curr =>
    if n_blocks ≤ (mem curr).size then
      if (mem curr).size = n_blocks then
        .found (update mem last { mem last with next := (mem curr).next })
          last (curr + unit_size)
      else
        let rest := (mem curr).size - n_blocks
        let mem1 := update mem curr { mem curr with size := rest }
        let blk := curr + rest * unit_size
        .found (update mem1 blk { mem1 blk with size := n_blocks }) last
          (blk + unit_size)
    else if curr = head then .nofit
    else findFit mem head n_blocks fuel curr (mem curr).next

/-- Lazy construction of the initial two-node circular list (the branch
`if ((last = d_allocator_info_p->free_list) == NULL)` of `allocate_b`):
returns the buffer after the writes together with the value loaded into
`last` (the list head). -/
def lazyInit (s : allocator_info_t) : (Nat → block_h) × Nat :=
  match s.free_list with
  | some h => (s.mem, h)
  | none =>
    (update
      (update s.mem free_memory_map
        { next := free_memory_map + unit_size, size := 0 })
      (free_memory_map + unit_size)
      { next := free_memory_map, size := s.free_size / unit_size },
     free_memory_map)

/-- `Static_Allocator::allocate_b` on a constructed arena. -/
def allocate_b (s : allocator_info_t) (n_bytes fuel : Nat) :
    AResult (Option Nat) :=
  if n_bytes = 0 then .threw .zeroBytes s
  else
    let n_blocks := n_blocks_of n_bytes
    if s.free_size < n_blocks * unit_size then .ok none s
    else
      let mh := lazyInit s
      match findFit mh.1 mh.2 n_blocks fuel mh.2 (mh.1 mh.2).next with
      | .found mem' fl ptr =>
        .ok (some ptr)
          { s with mem := mem', free_list := some fl,
                   free_size := s.free_size - n_blocks * unit_size }
      | .nofit => .ok none { s with mem := mh.1, free_list := some mh.2 }
      | .fuelOut => .diverge

/-- `Static_Allocator::allocate` (object count): `n_bytes = n_obj *
sizeof(T)`. -/
def allocate (s : allocator_info_t) (n_obj sizeofT fuel : Nat) :
    AResult (Option Nat) :=
  allocate_b s (n_obj * sizeofT) fuel

/-- The insertion-point search loop of `deallocate`: find the free node
`p` after which block `b` is to be linked. -/
def findIns (mem : Nat → block_h) (b : Nat) : Nat → Nat → Option Nat
  | 0, _ => none
  | fuel + 1, p =>
    if b ≥ p ∧ b < (mem p).next then some p
    else if (mem p).next ≤ p ∧ p < b then some p
    else if (mem p).next ≤ p ∧ b < (mem p).next then some p
    else findIns mem b fuel (mem p).next

/-- `Static_Allocator::deallocate`.  `ptr` is the pointer argument
(`none` = `nullptr`, `some q` = byte offset `q` into the buffer),
`n_obj * sizeofT` the byte extent used by the bounds check.  After that
check the source reads `d_allocator_info_p->free_list`; when it is null
the neighbour-search loop dereferences it (`crash`).  Note the final
`free_size` increment reads `b->d.size` after the merges. -/
def deallocate (s : allocator_info_t) (ptr : Option Nat)
    (n_obj sizeofT fuel : Nat) : AResult Unit :=
  match ptr with
  | none => .threw .nullFree s
  | some q =>
    if 0 < q ∧ q + n_obj * sizeofT ≤ s.capacity then
      let b := q - unit_size
      match s.free_list with
      | none => .crash
      | some fl =>
        match findIns s.mem b fuel fl with
        | none => .diverge
        | some p =>
          let nxt := (s.mem p).next
          let mem1 :=
            if b + (s.mem b).size * unit_size = nxt then
              update s.mem b
                { next := (s.mem nxt).next
                  size := (s.mem b).size + (s.mem nxt).size }
            else
              update s.mem b { s.mem b with next := nxt }
          let mem2 :=
            if p + (mem1 p).size * unit_size = b then
              update mem1 p
                { next := (mem1 b).next
                  size := (mem1 p).size + (mem1 b).size }
            else
              update mem1 p { mem1 p with next := b }
          .ok ()
            { s with mem := mem2, free_list := some p,
                     free_size := s.free_size + (mem2 b).size * unit_size }
    else .threw .outOfBounds s

/-- `Static_Allocator::free_size`, on the handle (`none` models a null
`d_allocator_info_p`, which throws `std::runtime_error`). -/
def free_sizeW : Option allocator_info_t → Except Err Nat
  | none => .error .uninit
  | some s => .ok s.free_size

/-- `Static_Allocator::unified`, on the handle.  A null info pointer
throws; a null free list yields `false` (with a warning); otherwise the
result is `(b->d.next)->d.next == b` for `b` the list head. -/
def unifiedW : Option allocator_info_t → Except Err Bool
  | none => .error .uninit
  | some s =>
    match s.free_list with
    | none => .ok false
    | some b => .ok (decide ((s.mem (s.mem b).next).next = b))

/-- Stateless projection of `allocate_b` results, for the handle-level
wrapper. -/
inductive WResult (α : Type) where
  | ok (val : α)
  | threw (e : Err)
  | crash
  | diverge
  deriving DecidableEq, Repr

/-- `Static_Allocator::allocate_b` at the handle level: a null
`d_allocator_info_p` throws `std::invalid_argument` ("Uninitialized
static memory") before anything else. -/
def allocate_bW : Option allocator_info_t → Nat → Nat → WResult (Option Nat)
  | none, _, _ => .threw .uninit
  | some s, n_bytes, fuel =>
    match allocate_b s n_bytes fuel with
    | .ok v _ => .ok v
    | .threw e _ => .threw e
    | .crash => .crash
    | .diverge => .diverge

/-- An arbitrary buffer content (all-zero headers), used for concrete
runs. -/
def memZ : Nat → block_h := fun _ => { next := 0, size := 0 }

theorem update_same (m : Nat → block_h) (a : Nat) (v : block_h) :
    update m a v a = v := by
  simp [update]

theorem update_other (m : Nat → block_h) (a : Nat) (v : block_h) (x : Nat)
    (h : x ≠ a) : update m a v x = m x := by
  simp [update, h]

/-- Fallback arena used when destructuring an `AResult`. -/
def zeroArena : allocator_info_t :=
  { capacity := 0, free_size := 0, free_list := none, mem := memZ }

/-- The state carried by an `AResult`, with fallback `d`. -/
def stOf {α : Type} (r : AResult α) (d : allocator_info_t) :
    allocator_info_t :=
  match r with
  | .ok _ s => s
  | .threw _ s => s
  | .crash => d
  | .diverge => d

/-- Concrete run for C1/C4: an arena over a 488-byte buffer.  Usable
free space is `488 - 104 = 384` bytes, i.e. 12 block units at offsets
72, 104, ..., 424. -/
def c1_s0 : allocator_info_t :=
  match Static_Allocator_ctor memZ 488 with
  | .ok s => s
  | .error _ => zeroArena

/-- After `allocate_b(32)`: block A of 2 units carved at offset 392,
pointer 424, free size 320. -/
def c1_s1 : allocator_info_t := stOf (allocate_b c1_s0 32 20) zeroArena

/-- After a second `allocate_b(32)`: block B at offset 328, pointer 360,
free size 256. -/
def c1_s2 : allocator_info_t := stOf (allocate_b c1_s1 32 20) zeroArena

/-- After `deallocate(424, 8)` (A, 8 ints = 32 bytes): free size 320. -/
def c1_s3 : allocator_info_t :=
  stOf (deallocate c1_s2 (some 424) 8 4 20) zeroArena

/-- After `deallocate(360, 8)` (B): both a forward merge (with the block
A just freed above B) and a backward merge fire. -/
def c1_s4 : allocator_info_t :=
  stOf (deallocate c1_s3 (some 360) 8 4 20) zeroArena

/-- Claim C1 (code bug): conservation fails.  On the 488-byte arena the
usable capacity is 384 bytes.  Allocating A and B (2 units each,
`free_size` 384 → 320 → 256) and then deallocating A and B leaves
`free_size = 448`, not 384: the deallocation of B raised `free_size` by
128 bytes although B's allocation subtracted only 64, because
`deallocate` adds `b->d.size * unit_size` only after the forward merge
has already folded the adjacent free block's size into `b->d.size`. -/
theorem C1_conservation_code_bug :
    c1_s0.free_size = 384 ∧
    allocate_b c1_s0 32 20 = .ok (some 424) c1_s1 ∧
    allocate_b c1_s1 32 20 = .ok (some 360) c1_s2 ∧
    c1_s2.free_size = 256 ∧
    deallocate c1_s2 (some 424) 8 4 20 = .ok () c1_s3 ∧
    c1_s3.free_size = 320 ∧
    deallocate c1_s3 (some 360) 8 4 20 = .ok () c1_s4 ∧
    c1_s4.free_size = 448 ∧ 448 ≠ 384 :=
  ⟨rfl, rfl, rfl, rfl, rfl, rfl, rfl, rfl, by decide⟩

/-- Third allocation on the C1 arena: block C at offset 264, pointer
296, free size 192. -/
def c4_s3 : allocator_info_t := stOf (allocate_b c1_s2 32 20) zeroArena

/-- Free B (middle block). -/
def c4_s4 : allocator_info_t :=
  stOf (deallocate c4_s3 (some 360) 8 4 20) zeroArena

/-- Free A (top block; backward merge with B). -/
def c4_s5 : allocator_info_t :=
  stOf (deallocate c4_s4 (some 424) 8 4 20) zeroArena

/-- Free C (bottom block; forward merge with B∪A and backward merge with
the big free block). -/
def c4_s6 : allocator_info_t :=
  stOf (deallocate c4_s5 (some 296) 8 4 20) zeroArena

/-- Claim C4 (code bug): allocate three equal adjacent blocks A (ptr
424), B (ptr 360), C (ptr 296) on the 488-byte arena, then free B, A, C.
Afterwards `unified()` is true as claimed, but `free_size()` is 512,
not the original usable capacity 384: each deallocation whose forward
merge fires adds the already-free neighbour's size again. -/
theorem C4_coalescing_code_bug :
    c1_s0.free_size = 384 ∧
    allocate_b c1_s2 32 20 = .ok (some 296) c4_s3 ∧
    deallocate c4_s3 (some 360) 8 4 20 = .ok () c4_s4 ∧
    deallocate c4_s4 (some 424) 8 4 20 = .ok () c4_s5 ∧
    deallocate c4_s5 (some 296) 8 4 20 = .ok () c4_s6 ∧
    unifiedW (some c4_s6) = .ok true ∧
    c4_s6.free_size = 512 ∧ 512 ≠ 384 :=
  ⟨rfl, rfl, rfl, rfl, rfl, rfl, rfl, by decide⟩

/-- Claim C8: the constructor fails with `std::bad_alloc` exactly when
`capacity < sizeof(allocator_info_t) + 2 * sizeof(block_h)`; on success
it installs the header with `free_size = capacity - overhead` and a null
`free_list` (the list is built lazily by the first allocation). -/
theorem C8_ctor_spec (mem0 : Nat → block_h) (capacity : Nat) :
    (capacity < minimum_memory_size →
      Static_Allocator_ctor mem0 capacity = .error .bad_alloc) ∧
    (minimum_memory_size ≤ capacity →
      Static_Allocator_ctor mem0 capacity =
        .ok { capacity := capacity
              free_size := capacity - minimum_memory_size
              free_list := none
              mem := mem0 }) := by
  constructor
  · intro h
    simp [Static_Allocator_ctor, h]
  · intro h
    simp [Static_Allocator_ctor, Nat.not_lt.mpr h]

/-- Witness for C8 at capacities 103 (fails: the minimum is 104) and
200 (succeeds with `free_size = 96`). -/
theorem C8_ctor_spec_witness :
    Static_Allocator_ctor memZ 103 = .error .bad_alloc ∧
    Static_Allocator_ctor memZ 200 =
      .ok { capacity := 200, free_size := 96, free_list := none,
            mem := memZ } :=
  ⟨(C8_ctor_spec memZ 103).1 (by decide),
   (C8_ctor_spec memZ 200).2 (by decide)⟩

/-- Claim C5: a request for more bytes than `free_size()` reports
returns `NULL` without throwing, and the state — the free-list head,
every block header, and the free-byte count — is returned unchanged
(the capacity test precedes the lazy list construction and the
search). -/
theorem C5_exhaustion_returns_null (s : allocator_info_t)
    (n_bytes fuel : Nat) (h : s.free_size < n_bytes) :
    allocate_b s n_bytes fuel = .ok none s := by
  have h0 : ¬ n_bytes = 0 := by omega
  have h1 : s.free_size < n_blocks_of n_bytes * unit_size := by
    have h2 := Nat.div_add_mod (n_bytes + 31) 32
    have h3 : (n_bytes + 31) % 32 < 32 := Nat.mod_lt _ (by norm_num)
    simp only [n_blocks_of, unit_size]
    omega
  unfold allocate_b
  rw [if_neg h0]
  simp only
  rw [if_pos h1]

/-- Witness for C5: a 200-byte arena has 96 free bytes; requesting 97
bytes returns `NULL` and leaves the arena untouched. -/
theorem C5_exhaustion_witness :
    (match Static_Allocator_ctor memZ 200 with
     | .ok s => s
     | .error _ => zeroArena).free_size < 97 ∧
    allocate_b
      (match Static_Allocator_ctor memZ 200 with
       | .ok s => s
       | .error _ => zeroArena) 97 20 =
      .ok none
        (match Static_Allocator_ctor memZ 200 with
         | .ok s => s
         | .error _ => zeroArena) :=
  ⟨by decide, C5_exhaustion_returns_null _ 97 20 (by decide)⟩

/-- Claim C6: `deallocate` throws `std::invalid_argument` when the
pointer is null or when the implied range `[q, q + n_obj * sizeof T)`
does not lie strictly inside the arena (`q > start ∧ q + bytes ≤ end`),
and in both cases the thrown outcome carries the arena state completely
unmodified. -/
theorem C6_deallocate_bounds_throw (s : allocator_info_t)
    (n_obj sizeofT fuel : Nat) :
    deallocate s none n_obj sizeofT fuel = .threw .nullFree s ∧
    ∀ q : Nat, ¬(0 < q ∧ q + n_obj * sizeofT ≤ s.capacity) →
      deallocate s (some q) n_obj sizeofT fuel = .threw .outOfBounds s := by
  refine ⟨rfl, fun q hq => ?_⟩
  simp only [deallocate]
  rw [if_neg hq]

/-- Witness for C6 on the 488-byte arena: freeing `nullptr`, and freeing
offset 600 (past the end), both throw and leave the state unchanged. -/
theorem C6_deallocate_bounds_witness :
    deallocate c1_s0 none 8 4 20 = .threw .nullFree c1_s0 ∧
    deallocate c1_s0 (some 600) 8 4 20 = .threw .outOfBounds c1_s0 :=
  ⟨(C6_deallocate_bounds_throw c1_s0 8 4 20).1,
   (C6_deallocate_bounds_throw c1_s0 8 4 20).2 600 (by decide)⟩

/-- Claim C9: `deallocate` performs no initialization check.  On an
arena whose free list is still null (no allocation ever built it), a
pointer that passes the bounds check reaches the neighbour-search loop,
which immediately dereferences the null list head — undefined behaviour
(`crash`) — instead of the uninitialized-allocator exception that
`allocate_b` (null info pointer) and `free_size` raise. -/
theorem C9_deallocate_null_head_crash (s : allocator_info_t)
    (q n_obj sizeofT fuel n_bytes fuel' : Nat)
    (hfl : s.free_list = none)
    (hq : 0 < q ∧ q + n_obj * sizeofT ≤ s.capacity) :
    deallocate s (some q) n_obj sizeofT fuel = .crash ∧
    allocate_bW none n_bytes fuel' = .threw .uninit ∧
    free_sizeW none = .error .uninit := by
  refine ⟨?_, rfl, rfl⟩
  simp only [deallocate]
  rw [if_pos hq]
  simp only [hfl]

/-- Witness for C9: the freshly constructed 488-byte arena has a null
free list; freeing in-bounds offset 424 crashes. -/
theorem C9_deallocate_null_head_witness :
    deallocate c1_s0 (some 424) 8 4 20 = .crash ∧
    allocate_bW none 32 20 = .threw .uninit ∧
    free_sizeW none = .error .uninit :=
  C9_deallocate_null_head_crash c1_s0 424 8 4 20 32 20 rfl (by decide)

/-- Claim C10: the object count passed to `deallocate` feeds only the
bounds check; once two counts `m`, `n` both pass it for the same
pointer, the two calls produce identical results — the freed byte count
is read from the stored block header, never from the argument. -/
theorem C10_count_only_bounds (s : allocator_info_t)
    (q m n sizeofT fuel : Nat)
    (hm : 0 < q ∧ q + m * sizeofT ≤ s.capacity)
    (hn : 0 < q ∧ q + n * sizeofT ≤ s.capacity) :
    deallocate s (some q) m sizeofT fuel =
      deallocate s (some q) n sizeofT fuel := by
  simp only [deallocate]
  rw [if_pos hm, if_pos hn]

/-- Witness for C10: freeing pointer 424 on the post-allocation arena
`c1_s2` with counts 8 and 1 (both in bounds) gives identical results. -/
theorem C10_count_only_bounds_witness :
    deallocate c1_s2 (some 424) 8 4 20 =
      deallocate c1_s2 (some 424) 1 4 20 :=
  C10_count_only_bounds c1_s2 424 8 1 4 20 (by decide) (by decide)

/-- Walk the `next` pointers from `x` until the walk returns to `h`,
collecting the nodes visited (excluding the terminating `h`). -/
def cycGo (mem : Nat → block_h) (h : Nat) : Nat → Nat → Option (List Nat)
  | 0, _ => none
  | fuel + 1, x =>
    if x = h then some []
    else (cycGo mem h fuel (mem x).next).map (fun t => x :: t)

/-- The free-list cycle through head `h`: the nodes visited before the
walk first returns to `h`. -/
def cycleList (mem : Nat → block_h) (h fuel : Nat) : Option (List Nat) :=
  (cycGo mem h fuel (mem h).next).map (fun t => h :: t)

/-- Number of real (non-sentinel, i.e. nonzero-size) blocks on the
free-list cycle through `h`. -/
def realBlocks (mem : Nat → block_h) (h fuel : Nat) : Option Nat :=
  (cycleList mem h fuel).map
    (fun l => l.countP (fun a => decide ((mem a).size ≠ 0)))

theorem cycGo_nil (mem : Nat → block_h) (h fuel x : Nat)
    (hg : cycGo mem h fuel x = some []) : x = h := by
  cases fuel with
  | zero => simp [cycGo] at hg
  | succ f =>
    by_cases hx : x = h
    · exact hx
    · simp [cycGo, hx] at hg

theorem cycGo_cons (mem : Nat → block_h) (h fuel x a : Nat) (t : List Nat)
    (hg : cycGo mem h fuel x = some (a :: t)) :
    x ≠ h ∧ a = x ∧ cycGo mem h (fuel - 1) (mem x).next = some t := by
  cases fuel with
  | zero => simp [cycGo] at hg
  | succ f =>
    by_cases hx : x = h
    · simp [cycGo, hx] at hg
    · simp only [cycGo, hx, if_false, Option.map_eq_some'] at hg
      obtain ⟨t', hg1, hg2⟩ := hg
      injection hg2 with hh ht
      subst ht
      exact ⟨hx, hh.symm, hg1⟩

/-- An arena over a 168-byte buffer: usable free space 64 bytes = 2
units.  `allocate_b(32)` needs exactly 2 units, so the exact-fit branch
unlinks the single real block, leaving the free list as the zero-size
sentinel pointing at itself. -/
def c7_s0 : allocator_info_t :=
  match Static_Allocator_ctor memZ 168 with
  | .ok s => s
  | .error _ => zeroArena

/-- The degenerate state after the exact-fit allocation: `free_list =
40`, `mem 40 = ⟨40, 0⟩`, one live allocation at pointer 104. -/
def c7_s1 : allocator_info_t := stOf (allocate_b c7_s0 32 20) zeroArena

/-- Claim C7 counterexample: in state `c7_s1` (reached from a fresh
168-byte arena by one exact-fit allocation, still live), the free list
is the self-linked zero-size sentinel alone — zero real blocks, not
exactly one — yet `unified()` returns `true`, refuting the claimed
"true iff exactly one real block beyond the sentinel". -/
theorem C7_unified_degenerate_cex :
    allocate_b c7_s0 32 20 = .ok (some 104) c7_s1 ∧
    c7_s1.free_list = some 40 ∧
    realBlocks c7_s1.mem 40 20 = some 0 ∧
    unifiedW (some c7_s1) = .ok true :=
  ⟨rfl, rfl, rfl, rfl⟩

/-- Claim C7 (amended): `unified()` returns true iff the free-list cycle
through the head has length at most 2 — i.e. the list is the sentinel
plus exactly one real block, or the degenerate self-linked single node
left behind by an exact-fit allocation that consumed the last free
block.  A null info pointer fails with an error and a null free list
yields `false`, never `true`. -/
theorem C7_unified_cycle_length (s : allocator_info_t) (h fuel : Nat)
    (l : List Nat) (hfl : s.free_list = some h)
    (hcyc : cycleList s.mem h fuel = some l) :
    (unifiedW (some s) = .ok true ↔ l.length ≤ 2) ∧
    unifiedW none = .error .uninit ∧
    (∀ s' : allocator_info_t, s'.free_list = none →
      unifiedW (some s') = .ok false) := by
  refine ⟨?_, rfl, fun s' h' => by simp [unifiedW, h']⟩
  simp only [unifiedW, hfl, Except.ok.injEq, decide_eq_true_eq]
  simp only [cycleList, Option.map_eq_some'] at hcyc
  obtain ⟨t, ht, rfl⟩ := hcyc
  match t, ht with
  | [], ht =>
    have hx1 : (s.mem h).next = h := cycGo_nil s.mem h fuel _ ht
    simp [hx1]
  | [a], ht =>
    obtain ⟨hx1, rfl, ht'⟩ := cycGo_cons s.mem h fuel _ a [] ht
    have hx2 : (s.mem (s.mem h).next).next = h :=
      cycGo_nil s.mem h (fuel - 1) _ ht'
    simp [hx2]
  | a :: b :: t', ht =>
    obtain ⟨hx1, rfl, ht'⟩ := cycGo_cons s.mem h fuel _ a (b :: t') ht
    obtain ⟨hx2, rfl, _⟩ :=
      cycGo_cons s.mem h (fuel - 1) _ b t' ht'
    constructor
    · intro hu
      exact absurd hu hx2
    · intro hlen
      simp at hlen

/-- Witness for the amended C7 at the concrete end state of the C1 run:
the cycle from head 72 is `[72, 40]` (length 2) and `unified()` is
`true`. -/
theorem C7_unified_cycle_length_witness :
    c1_s4.free_list = some 72 ∧
    cycleList c1_s4.mem 72 20 = some [72, 40] ∧
    (unifiedW (some c1_s4) = .ok true ↔ ([72, 40] : List Nat).length ≤ 2) :=
  ⟨rfl, rfl, (C7_unified_cycle_length c1_s4 72 20 [72, 40] rfl rfl).1⟩

/-!
Machinery for the round-trip claim: in a state with no live
allocations the free list (once it exists) is the canonical two-node
cycle — the zero-size sentinel at offset 40 and one block at offset
72 — and an allocation followed by its deallocation restores it.
-/

/-- The buffer holds the canonical two-node free list: the sentinel at
offset `free_memory_map = 40` (size 0) and a single block at offset 72
of `S` units. -/
def canonicalMem (mem : Nat → block_h) (S : Nat) : Prop :=
  mem 40 = { next := 72, size := 0 } ∧ mem 72 = { next := 40, size := S }

theorem findFit_canonical_inv (mem : Nat → block_h) (S nb head fuel : Nat)
    (m : Nat → block_h) (fl ptr : Nat)
    (hc : canonicalMem mem S) (hnb : 1 ≤ nb) (hhead : head = 40 ∨ head = 72)
    (hf : findFit mem head nb fuel 40 72 = .found m fl ptr) :
    nb ≤ S ∧ fl = 40 ∧
      ((S = nb ∧ m = update mem 40 { next := 40, size := 0 } ∧ ptr = 104) ∨
       (nb < S ∧
         m = update (update mem 72 { next := 40, size := S - nb })
               (72 + (S - nb) * 32)
               { next :=
                   (update mem 72 { next := 40, size := S - nb }
                     (72 + (S - nb) * 32)).next
                 size := nb } ∧
         ptr = 72 + (S - nb) * 32 + 32)) := by
  obtain ⟨hc40, hc72⟩ := hc
  cases fuel with
  | zero => exact absurd hf (by simp [findFit])
  | succ f =>
    simp only [findFit, hc40, hc72, unit_size] at hf
    by_cases hle : nb ≤ S
    · rw [if_pos hle] at hf
      by_cases heq : S = nb
      · rw [if_pos heq] at hf
        simp only [FitResult.found.injEq] at hf
        obtain ⟨hm, hfl', hptr⟩ := hf
        refine ⟨hle, hfl'.symm, Or.inl ⟨heq, hm.symm, by omega⟩⟩
      · rw [if_neg heq] at hf
        simp only [FitResult.found.injEq] at hf
        obtain ⟨hm, hfl', hptr⟩ := hf
        refine ⟨hle, hfl'.symm, Or.inr ⟨by omega, hm.symm, by omega⟩⟩
    · rw [if_neg hle] at hf
      rcases hhead with rfl | rfl
      · rw [if_neg (by decide)] at hf
        cases f with
        | zero => exact absurd hf (by simp [findFit])
        | succ f' =>
          simp only [findFit, hc40] at hf
          rw [if_neg (by omega)] at hf
          simp at hf
      · rw [if_pos rfl] at hf
        exact absurd hf (by simp)

theorem dealloc_exact_lemma (s : allocator_info_t)
    (S n_obj sizeofT f : Nat)
    (h40 : s.mem 40 = { next := 40, size := 0 })
    (h72 : s.mem 72 = { next := 40, size := S })
    (hfl : s.free_list = some 40)
    (hbound : 104 + n_obj * sizeofT ≤ s.capacity) :
    deallocate s (some 104) n_obj sizeofT (f + 1) =
      .ok () { capacity := s.capacity
               free_size := s.free_size + S * 32
               free_list := some 40
               mem := update (update s.mem 72 { next := 40, size := S }) 40
                        { next := 72, size := 0 } } := by
  have h104 : (104 : Nat) - unit_size = 72 := by decide
  have hIns : findIns s.mem 72 (f + 1) 40 = some 40 := by
    simp [findIns, h40]
  simp only [deallocate]
  rw [if_pos ⟨by norm_num, hbound⟩]
  simp only [h104, hfl, hIns, h40, h72]
  have hf1 : ¬ 72 + S * unit_size = 40 := by
    simp only [unit_size]
    omega
  rw [if_neg hf1]
  have hu40 : update s.mem 72 { next := 40, size := S } 40 =
      { next := 40, size := 0 } := by
    rw [update_other _ _ _ _ (by decide)]
    exact h40
  have hu72 : update s.mem 72 { next := 40, size := S } 72 =
      { next := 40, size := S } := update_same _ _ _
  simp only [hu40, hu72, unit_size]
  rw [if_neg (by omega)]
  have hfin : update (update s.mem 72 { next := 40, size := S }) 40
      { next := 72, size := 0 } 72 = { next := 40, size := S } := by
    rw [update_other _ _ _ _ (by decide)]
    exact hu72
  rw [hfin]

theorem dealloc_split_lemma (s : allocator_info_t)
    (R nb g n_obj sizeofT f : Nat)
    (h40 : s.mem 40 = { next := 72, size := 0 })
    (h72 : s.mem 72 = { next := 40, size := R })
    (hB : s.mem (72 + R * 32) = { next := g, size := nb })
    (hR : 1 ≤ R)
    (hfl : s.free_list = some 40)
    (hbound : 72 + R * 32 + 32 + n_obj * sizeofT ≤ s.capacity) :
    deallocate s (some (72 + R * 32 + 32)) n_obj sizeofT (f + 2) =
      .ok () { capacity := s.capacity
               free_size := s.free_size + nb * 32
               free_list := some 72
               mem :=
                 update
                   (update s.mem (72 + R * 32) { next := 40, size := nb }) 72
                   { next := 40, size := R + nb } } := by
  have hsub : 72 + R * 32 + 32 - unit_size = 72 + R * 32 := by
    simp only [unit_size]
    omega
  have hIns : findIns s.mem (72 + R * 32) (f + 2) 40 = some 72 := by
    simp only [findIns, h40]
    rw [if_neg (by omega), if_neg (by omega), if_neg (by omega)]
    simp only [findIns, h72]
    rw [if_neg (by omega), if_pos (by omega)]
  simp only [deallocate]
  rw [if_pos ⟨by omega, hbound⟩]
  simp only [hsub, hfl, hIns, h72, hB]
  rw [if_neg (show ¬ 72 + R * 32 + nb * unit_size = 40 from by
    simp only [unit_size]
    omega)]
  have hu72' : update s.mem (72 + R * 32) { next := 40, size := nb } 72 =
      { next := 40, size := R } := by
    rw [update_other _ _ _ _ (by omega)]
    exact h72
  have huB : update s.mem (72 + R * 32) { next := 40, size := nb }
      (72 + R * 32) = { next := 40, size := nb } := update_same _ _ _
  simp only [hu72', huB, unit_size]
  simp only [if_true]
  have hfin : update
      (update s.mem (72 + R * 32) { next := 40, size := nb }) 72
      { next := 40, size := R + nb } (72 + R * 32) =
      { next := 40, size := nb } := by
    rw [update_other _ _ _ _ (by omega)]
    exact huB
  rw [hfin]

theorem findFit_from72_inv (mem : Nat → block_h) (S nb fuel : Nat)
    (m : Nat → block_h) (fl ptr : Nat)
    (hc : canonicalMem mem S) (hnb : 1 ≤ nb)
    (hf : findFit mem 72 nb fuel 72 40 = .found m fl ptr) :
    nb ≤ S ∧ fl = 40 ∧
      ((S = nb ∧ m = update mem 40 { next := 40, size := 0 } ∧ ptr = 104) ∨
       (nb < S ∧
         m = update (update mem 72 { next := 40, size := S - nb })
               (72 + (S - nb) * 32)
               { next :=
                   (update mem 72 { next := 40, size := S - nb }
                     (72 + (S - nb) * 32)).next
                 size := nb } ∧
         ptr = 72 + (S - nb) * 32 + 32)) := by
  cases fuel with
  | zero => exact absurd hf (by simp [findFit])
  | succ f =>
    have hc40 := hc.1
    simp only [findFit, hc40] at hf
    rw [if_neg (by omega), if_neg (by decide)] at hf
    exact findFit_canonical_inv mem S nb 72 f m fl ptr hc hnb (Or.inr rfl) hf

/-- A state with no live allocations: either the arena is fresh (null
free list, the constructor's capacity relation holding) or its free
list is the canonical two-node cycle — reached again after every
completed round trip — with the head at either node and the blocks
inside the arena's bounds. -/
def NoLive (s : allocator_info_t) : Prop :=
  (s.free_list = none ∧ s.free_size + minimum_memory_size ≤ s.capacity) ∨
  (∃ S, (s.free_list = some 40 ∨ s.free_list = some 72) ∧
    canonicalMem s.mem S ∧ 72 + S * 32 ≤ s.capacity)

theorem allocate_b_nolive (s : allocator_info_t) (n_bytes fuel : Nat)
    (ptr : Nat) (s1 : allocator_info_t)
    (hnl : NoLive s)
    (h : allocate_b s n_bytes fuel = .ok (some ptr) s1) :
    ∃ S nb, nb = n_blocks_of n_bytes ∧ 2 ≤ nb ∧ nb ≤ S ∧
      nb * 32 ≤ s.free_size ∧ 72 + S * 32 ≤ s.capacity ∧
      s1.capacity = s.capacity ∧
      s1.free_size = s.free_size - nb * 32 ∧
      s1.free_list = some 40 ∧
      ((S = nb ∧ ptr = 104 ∧
         s1.mem 40 = { next := 40, size := 0 } ∧
         s1.mem 72 = { next := 40, size := S }) ∨
       (nb < S ∧ ptr = 72 + (S - nb) * 32 + 32 ∧
         s1.mem 40 = { next := 72, size := 0 } ∧
         s1.mem 72 = { next := 40, size := S - nb } ∧
         ∃ g, s1.mem (72 + (S - nb) * 32) = { next := g, size := nb })) := by
  simp only [allocate_b] at h
  by_cases h0 : n_bytes = 0
  · rw [if_pos h0] at h
    exact absurd h (by simp)
  rw [if_neg h0] at h
  by_cases hcap : s.free_size < n_blocks_of n_bytes * unit_size
  · rw [if_pos hcap] at h
    exact absurd h (by simp)
  rw [if_neg hcap] at h
  have hnb2 : 2 ≤ n_blocks_of n_bytes := by
    simp only [n_blocks_of, unit_size]
    omega
  have hnbfs : n_blocks_of n_bytes * 32 ≤ s.free_size := by
    simp only [unit_size] at hcap
    omega
  rcases hnl with ⟨hfl, hcap104⟩ | ⟨S, hheads, hcmem, hScap⟩
  · -- fresh arena: the lazy initialization installs the canonical list
    have hlz : lazyInit s =
        (update
          (update s.mem 40 { next := 72, size := 0 }) 72
          { next := 40, size := s.free_size / 32 },
         40) := by
      simp [lazyInit, hfl, free_memory_map, info_size, unit_size]
    simp only [hlz] at h
    have hcI : canonicalMem
        (update (update s.mem 40 { next := 72, size := 0 }) 72
          { next := 40, size := s.free_size / 32 })
        (s.free_size / 32) := by
      constructor
      · rw [update_other _ _ _ _ (by decide), update_same]
      · rw [update_same]
    have hm40 : (update (update s.mem 40 { next := 72, size := 0 }) 72
        { next := 40, size := s.free_size / 32 }) 40 =
        { next := 72, size := 0 } := by
      rw [update_other _ _ _ _ (by decide), update_same]
    rw [hm40] at h
    cases hfit : findFit
        (update (update s.mem 40 { next := 72, size := 0 }) 72
          { next := 40, size := s.free_size / 32 })
        40 (n_blocks_of n_bytes) fuel 40 72 with
    | nofit =>
      rw [hfit] at h
      exact absurd h (by simp)
    | fuelOut =>
      rw [hfit] at h
      exact absurd h (by simp)
    | found m fl p =>
      rw [hfit] at h
      simp only [AResult.ok.injEq, Option.some.injEq] at h
      obtain ⟨rfl, rfl⟩ := h
      obtain ⟨hle, rfl, hcases⟩ :=
        findFit_canonical_inv _ (s.free_size / 32) (n_blocks_of n_bytes)
          40 fuel m fl p hcI (by omega) (Or.inl rfl) hfit
      have hdivle : s.free_size / 32 * 32 ≤ s.free_size :=
        Nat.div_mul_le_self _ _
      have hScap' : 72 + s.free_size / 32 * 32 ≤ s.capacity := by
        simp only [minimum_memory_size, info_size, unit_size] at hcap104
        omega
      refine ⟨s.free_size / 32, n_blocks_of n_bytes, rfl, hnb2, hle, hnbfs,
        hScap', rfl, by simp [unit_size], rfl, ?_⟩
      rcases hcases with ⟨hSnb, rfl, rfl⟩ | ⟨hlt, rfl, rfl⟩
      · refine Or.inl ⟨hSnb, rfl, ?_, ?_⟩
        · dsimp only
          exact update_same _ _ _
        · dsimp only
          rw [update_other _ _ _ _ (by decide), update_same]
      · have hBne : (72 : Nat) ≠ 72 + (s.free_size / 32 - n_blocks_of n_bytes) * 32 := by
          omega
        have hBne40 : (40 : Nat) ≠ 72 + (s.free_size / 32 - n_blocks_of n_bytes) * 32 := by
          omega
        refine Or.inr ⟨hlt, rfl, ?_, ?_, ?_⟩
        · dsimp only
          rw [update_other _ _ _ _ hBne40, update_other _ _ _ _ (by decide),
            update_other _ _ _ _ (by decide), update_same]
        · dsimp only
          rw [update_other _ _ _ _ hBne, update_same]
        · dsimp only
          exact ⟨_, update_same _ _ _⟩
  · -- canonical two-node list
    rcases hheads with hfl | hfl
    · have hlz : lazyInit s = (s.mem, 40) := by simp [lazyInit, hfl]
      simp only [hlz] at h
      rw [hcmem.1] at h
      cases hfit : findFit s.mem 40 (n_blocks_of n_bytes) fuel 40 72 with
      | nofit =>
        rw [hfit] at h
        exact absurd h (by simp)
      | fuelOut =>
        rw [hfit] at h
        exact absurd h (by simp)
      | found m fl p =>
        rw [hfit] at h
        simp only [AResult.ok.injEq, Option.some.injEq] at h
        obtain ⟨rfl, rfl⟩ := h
        obtain ⟨hle, rfl, hcases⟩ :=
          findFit_canonical_inv _ S (n_blocks_of n_bytes)
            40 fuel m fl p hcmem (by omega) (Or.inl rfl) hfit
        refine ⟨S, n_blocks_of n_bytes, rfl, hnb2, hle, hnbfs,
          hScap, rfl, by simp [unit_size], rfl, ?_⟩
        rcases hcases with ⟨hSnb, rfl, rfl⟩ | ⟨hlt, rfl, rfl⟩
        · refine Or.inl ⟨hSnb, rfl, ?_, ?_⟩
          · dsimp only
            exact update_same _ _ _
          · dsimp only
            rw [update_other _ _ _ _ (by decide)]
            exact hcmem.2
        · have hBne : (72 : Nat) ≠ 72 + (S - n_blocks_of n_bytes) * 32 := by
            omega
          have hBne40 : (40 : Nat) ≠ 72 + (S - n_blocks_of n_bytes) * 32 := by
            omega
          refine Or.inr ⟨hlt, rfl, ?_, ?_, ?_⟩
          · dsimp only
            rw [update_other _ _ _ _ hBne40, update_other _ _ _ _ (by decide)]
            exact hcmem.1
          · dsimp only
            rw [update_other _ _ _ _ hBne, update_same]
          · dsimp only
            exact ⟨_, update_same _ _ _⟩
    · have hlz : lazyInit s = (s.mem, 72) := by simp [lazyInit, hfl]
      simp only [hlz] at h
      rw [hcmem.2] at h
      cases hfit : findFit s.mem 72 (n_blocks_of n_bytes) fuel 72 40 with
      | nofit =>
        rw [hfit] at h
        exact absurd h (by simp)
      | fuelOut =>
        rw [hfit] at h
        exact absurd h (by simp)
      | found m fl p =>
        rw [hfit] at h
        simp only [AResult.ok.injEq, Option.some.injEq] at h
        obtain ⟨rfl, rfl⟩ := h
        obtain ⟨hle, rfl, hcases⟩ :=
          findFit_from72_inv _ S (n_blocks_of n_bytes)
            fuel m fl p hcmem (by omega) hfit
        refine ⟨S, n_blocks_of n_bytes, rfl, hnb2, hle, hnbfs,
          hScap, rfl, by simp [unit_size], rfl, ?_⟩
        rcases hcases with ⟨hSnb, rfl, rfl⟩ | ⟨hlt, rfl, rfl⟩
        · refine Or.inl ⟨hSnb, rfl, ?_, ?_⟩
          · dsimp only
            exact update_same _ _ _
          · dsimp only
            rw [update_other _ _ _ _ (by decide)]
            exact hcmem.2
        · have hBne : (72 : Nat) ≠ 72 + (S - n_blocks_of n_bytes) * 32 := by
            omega
          have hBne40 : (40 : Nat) ≠ 72 + (S - n_blocks_of n_bytes) * 32 := by
            omega
          refine Or.inr ⟨hlt, rfl, ?_, ?_, ?_⟩
          · dsimp only
            rw [update_other _ _ _ _ hBne40, update_other _ _ _ _ (by decide)]
            exact hcmem.1
          · dsimp only
            rw [update_other _ _ _ _ hBne, update_same]
          · dsimp only
            exact ⟨_, update_same _ _ _⟩

/-- Claim C3: on an initialized arena with no live allocations, an
allocation of `n_obj` objects that succeeds (returns a pointer),
followed immediately by deallocating that pointer with the same count,
restores `free_size()` to its pre-allocation value and leaves
`unified()` true. -/
theorem C3_roundtrip (s : allocator_info_t) (n_obj sizeofT fuel1 fuel2 : Nat)
    (ptr : Nat) (s1 : allocator_info_t)
    (hnl : NoLive s)
    (halloc : allocate s n_obj sizeofT fuel1 = .ok (some ptr) s1)
    (hfuel2 : 2 ≤ fuel2) :
    ∃ s2, deallocate s1 (some ptr) n_obj sizeofT fuel2 = .ok () s2 ∧
      s2.free_size = s.free_size ∧
      unifiedW (some s2) = .ok true := by
  obtain ⟨S, nb, hnbdef, hnb2, hnbS, hnbfs, hScap, hcap, hfs, hfl, hcase⟩ :=
    allocate_b_nolive s (n_obj * sizeofT) fuel1 ptr s1 hnl halloc
  have hbytes : n_obj * sizeofT ≤ (nb - 1) * 32 := by
    subst hnbdef
    simp only [n_blocks_of, unit_size]
    omega
  obtain ⟨f2, rfl⟩ : ∃ f2, fuel2 = f2 + 2 := ⟨fuel2 - 2, by omega⟩
  rcases hcase with ⟨hSnb, rfl, h40, h72⟩ | ⟨hlt, rfl, h40, h72, g, hB⟩
  · -- exact fit: the freed block merges backward into the sentinel's
    -- successor position, recreating the canonical list
    have hbound : 104 + n_obj * sizeofT ≤ s1.capacity := by
      rw [hcap]
      omega
    have heq := dealloc_exact_lemma s1 S n_obj sizeofT (f2 + 1)
      h40 h72 hfl hbound
    refine ⟨_, heq, ?_, ?_⟩
    · rw [hfs]
      simp only
      omega
    · simp only [unifiedW]
      have hM40 : update (update s1.mem 72 { next := 40, size := S }) 40
          { next := 72, size := 0 } 40 = { next := 72, size := 0 } :=
        update_same _ _ _
      have hM72 : update (update s1.mem 72 { next := 40, size := S }) 40
          { next := 72, size := 0 } 72 = { next := 40, size := S } := by
        rw [update_other _ _ _ _ (by decide), update_same]
      simp [hM40, hM72]
  · -- split: the freed block merges backward into the shrunken block
    have hbound : 72 + (S - nb) * 32 + 32 + n_obj * sizeofT ≤ s1.capacity := by
      rw [hcap]
      omega
    have heq := dealloc_split_lemma s1 (S - nb) nb g n_obj sizeofT (f2)
      h40 h72 hB (by omega) hfl hbound
    refine ⟨_, heq, ?_, ?_⟩
    · rw [hfs]
      simp only
      omega
    · simp only [unifiedW]
      have hM72 : update
          (update s1.mem (72 + (S - nb) * 32) { next := 40, size := nb }) 72
          { next := 40, size := S - nb + nb } 72 =
          { next := 40, size := S - nb + nb } := update_same _ _ _
      have hM40 : update
          (update s1.mem (72 + (S - nb) * 32) { next := 40, size := nb }) 72
          { next := 40, size := S - nb + nb } 40 =
          { next := 72, size := 0 } := by
        rw [update_other _ _ _ _ (by decide),
          update_other _ _ _ _ (by omega)]
        exact h40
      simp [hM72, hM40]

/-- Concrete fresh arena for the C3 witness: 488-byte buffer. -/
def w3_s1 : allocator_info_t := stOf (allocate c1_s0 8 4 10) zeroArena

/-- Witness for C3: on the fresh 488-byte arena, allocating 8 objects
of 4 bytes succeeds with pointer 424, and the round trip restores
`free_size = 384` with `unified()` true. -/
theorem C3_roundtrip_witness :
    NoLive c1_s0 ∧
    allocate c1_s0 8 4 10 = .ok (some 424) w3_s1 ∧
    ∃ s2, deallocate w3_s1 (some 424) 8 4 5 = .ok () s2 ∧
      s2.free_size = c1_s0.free_size ∧
      unifiedW (some s2) = .ok true :=
  ⟨Or.inl ⟨rfl, by decide⟩, rfl,
   C3_roundtrip c1_s0 8 4 10 5 424 w3_s1 (Or.inl ⟨rfl, by decide⟩) rfl
     (by omega)⟩

end StaticAllocator

namespace SharedAllocator

/-!
Embedding of the reference-counting protocol of `shared_allocator.cpp`.
The control header (`shared_map_info_t`) lives in the mapped segment;
its semaphore serializes reference-count updates, so the sequential
trace semantics below is the behaviour of any interleaving of the
serialized critical sections.  The OS side effects of the final
teardown (`sem_destroy`, `munmap`, `shm_unlink`) are modelled by the
`teardowns` event counter and the `linked` flag of the world state.
-/

/-- The operations a holder can perform on a shared-region handle after
`Shared_Allocator(name, size)` created it: copy construction, move
assignment, destruction. -/
inductive SharedOp where
  | copy
  | moveAssign
  | destroy
  deriving DecidableEq, Repr

/-- Observable state of the shared region: the control header's
`ref_count`, how many times the teardown sequence has run, and whether
the named backing object is still linked. -/
structure SharedWorld where
  ref_count : Nat
  teardowns : Nat
  linked : Bool
  deriving DecidableEq, Repr

/-- The parameterized constructor: installs the control header with
`ref_count = 1`; the backing object exists and nothing has been torn
down. -/
def sharedCreate : SharedWorld :=
  { ref_count := 1, teardowns := 0, linked := true }

/-- Effect of one handle operation, from the source: the copy
constructor increments `ref_count` (under the semaphore); move
assignment transfers ownership without touching the count; the
destructor decrements the count and, exactly when it reaches zero, runs
`sem_destroy`, `munmap`, `shm_unlink`. -/
def stepOp (w : SharedWorld) : SharedOp → SharedWorld
  | .copy => { w with ref_count := w.ref_count + 1 }
  | .moveAssign => w
  | .destroy =>
    if w.ref_count - 1 = 0 then
      { ref_count := 0, teardowns := w.teardowns + 1, linked := false }
    else
      { w with ref_count := w.ref_count - 1 }

/-- Run a sequence of handle operations. -/
def runOps (w : SharedWorld) : List SharedOp → SharedWorld
  | [] => w
  | op :: t => runOps (stepOp w op) t

/-- Number of copy constructions in a trace. -/
def nCopies (ops : List SharedOp) : Nat :=
  ops.countP (fun o => decide (o = SharedOp.copy))

/-- Number of destructions in a trace. -/
def nDestroys (ops : List SharedOp) : Nat :=
  ops.countP (fun o => decide (o = SharedOp.destroy))

/-- Reference count after one operation. -/
def nextCount (rc : Nat) : SharedOp → Nat
  | .copy => rc + 1
  | .moveAssign => rc
  | .destroy => rc - 1

/-- A trace is valid from reference count `rc` when every operation is
performed by an existing handle: the count is positive before each
step (once the last handle is destroyed, no further operation can
occur). -/
def validFrom : Nat → List SharedOp → Bool
  | _, [] => true
  | rc, op :: t => decide (0 < rc) && validFrom (nextCount rc op) t

theorem nCopies_copy_cons (t : List SharedOp) :
    nCopies (SharedOp.copy :: t) = nCopies t + 1 := by
  simp [nCopies, List.countP_cons]

theorem nCopies_move_cons (t : List SharedOp) :
    nCopies (SharedOp.moveAssign :: t) = nCopies t := by
  simp [nCopies, List.countP_cons]

theorem nCopies_destroy_cons (t : List SharedOp) :
    nCopies (SharedOp.destroy :: t) = nCopies t := by
  simp [nCopies, List.countP_cons]

theorem nDestroys_copy_cons (t : List SharedOp) :
    nDestroys (SharedOp.copy :: t) = nDestroys t := by
  simp [nDestroys, List.countP_cons]

theorem nDestroys_move_cons (t : List SharedOp) :
    nDestroys (SharedOp.moveAssign :: t) = nDestroys t := by
  simp [nDestroys, List.countP_cons]

theorem nDestroys_destroy_cons (t : List SharedOp) :
    nDestroys (SharedOp.destroy :: t) = nDestroys t + 1 := by
  simp [nDestroys, List.countP_cons]

theorem runOps_valid (ops : List SharedOp) : ∀ rc, 0 < rc →
    validFrom rc ops = true →
    nDestroys ops ≤ rc + nCopies ops ∧
    runOps { ref_count := rc, teardowns := 0, linked := true } ops =
      { ref_count := rc + nCopies ops - nDestroys ops
        teardowns := if rc + nCopies ops = nDestroys ops then 1 else 0
        linked := decide (¬ rc + nCopies ops = nDestroys ops) } := by
  induction ops with
  | nil =>
    intro rc hrc _
    have hc : nCopies ([] : List SharedOp) = 0 := by simp [nCopies]
    have hd : nDestroys ([] : List SharedOp) = 0 := by simp [nDestroys]
    rw [hc, hd]
    refine ⟨by omega, ?_⟩
    simp only [runOps, SharedWorld.mk.injEq]
    have h1 : ¬ rc + 0 = 0 := by omega
    have h2 : ¬ rc = 0 := by omega
    refine ⟨by omega, by rw [if_neg h1], by simp [h2]⟩
  | cons op t ih =>
    intro rc hrc hv
    simp only [validFrom, Bool.and_eq_true, decide_eq_true_eq] at hv
    obtain ⟨-, hv⟩ := hv
    cases op with
    | copy =>
      have := ih (rc + 1) (by omega) hv
      simp only [runOps, stepOp, nCopies_copy_cons, nDestroys_copy_cons]
      refine ⟨by omega, ?_⟩
      rw [this.2]
      have he : rc + 1 + nCopies t = rc + (nCopies t + 1) := by omega
      rw [he]
    | moveAssign =>
      have := ih rc hrc hv
      simp only [runOps, stepOp, nCopies_move_cons, nDestroys_move_cons]
      exact this
    | destroy =>
      simp only [runOps, stepOp, nCopies_destroy_cons, nDestroys_destroy_cons]
      simp only [nextCount] at hv
      by_cases h0 : rc - 1 = 0
      · have hrc1 : rc = 1 := by omega
        rw [if_pos h0]
        cases t with
        | nil =>
          subst hrc1
          have hc : nCopies ([] : List SharedOp) = 0 := by simp [nCopies]
          have hd : nDestroys ([] : List SharedOp) = 0 := by simp [nDestroys]
          rw [hc, hd]
          refine ⟨by omega, ?_⟩
          simp [runOps]
        | cons op' t' =>
          exfalso
          rw [h0] at hv
          simp only [validFrom, Bool.and_eq_true, decide_eq_true_eq] at hv
          exact absurd hv.1 (Nat.lt_irrefl 0)
      · rw [if_neg h0]
        have := ih (rc - 1) (by omega) hv
        refine ⟨by omega, ?_⟩
        rw [this.2]
        have he : (rc - 1 + nCopies t = nDestroys t) ↔
            (rc + nCopies t = nDestroys t + 1) := by omega
        have he2 : rc - 1 + nCopies t - nDestroys t =
            rc + nCopies t - (nDestroys t + 1) := by omega
        simp only [SharedWorld.mk.injEq]
        refine ⟨by omega, by simp [he], by simp [he]⟩

/-- Claim C2: the reference-count lifecycle of the shared region.
Construction sets `ref_count = 1`; each copy construction increments it
by exactly 1; move assignment leaves the world unchanged; each
destruction decrements it by exactly 1; and over any valid trace of
handle operations the teardown sequence (`sem_destroy`, `munmap`,
`shm_unlink`) runs exactly once — on the destruction taking the count
from 1 to 0 — and never while the count is positive, the backing object
remaining linked until then. -/
theorem C2_refcount_lifecycle :
    sharedCreate.ref_count = 1 ∧ sharedCreate.teardowns = 0 ∧
    sharedCreate.linked = true ∧
    (∀ w, (stepOp w .copy).ref_count = w.ref_count + 1 ∧
      (stepOp w .copy).teardowns = w.teardowns ∧
      (stepOp w .copy).linked = w.linked) ∧
    (∀ w, stepOp w .moveAssign = w) ∧
    (∀ w, 0 < w.ref_count →
      (stepOp w .destroy).ref_count = w.ref_count - 1) ∧
    (∀ ops, validFrom 1 ops = true →
      (runOps sharedCreate ops).ref_count + nDestroys ops =
        1 + nCopies ops ∧
      (runOps sharedCreate ops).teardowns =
        (if (runOps sharedCreate ops).ref_count = 0 then 1 else 0) ∧
      (0 < (runOps sharedCreate ops).ref_count →
        (runOps sharedCreate ops).teardowns = 0 ∧
        (runOps sharedCreate ops).linked = true)) := by
  refine ⟨rfl, rfl, rfl, fun w => ⟨rfl, rfl, rfl⟩, fun w => rfl,
    fun w hw => ?_, fun ops hv => ?_⟩
  · simp only [stepOp]
    by_cases h0 : w.ref_count - 1 = 0
    · rw [if_pos h0]
      show 0 = w.ref_count - 1
      omega
    · rw [if_neg h0]
  · obtain ⟨hle, hrun⟩ := runOps_valid ops 1 (by omega) hv
    rw [show sharedCreate =
      { ref_count := 1, teardowns := 0, linked := true } from rfl, hrun]
    refine ⟨by simp; omega, ?_, ?_⟩
    · by_cases h0 : 1 + nCopies ops = nDestroys ops
      · simp [h0]
      · have : ¬ 1 + nCopies ops - nDestroys ops = 0 := by omega
        simp [h0, this]
    · intro hpos
      simp only at hpos
      have h0 : ¬ 1 + nCopies ops = nDestroys ops := by omega
      simp [h0]

/-- Witness for C2 on the spec's scenario: create (count 1), attach
twice (count 3), release three times; the final release tears down.
The trace is valid, the final count is 0, teardown ran once, and after
the two attaches plus one release the prefix world still has count 2
with the object linked. -/
theorem C2_refcount_lifecycle_witness :
    validFrom 1
      [SharedOp.copy, SharedOp.copy, SharedOp.destroy, SharedOp.destroy,
        SharedOp.destroy] = true ∧
    (runOps sharedCreate
      [SharedOp.copy, SharedOp.copy, SharedOp.destroy, SharedOp.destroy,
        SharedOp.destroy]).ref_count +
      nDestroys
        [SharedOp.copy, SharedOp.copy, SharedOp.destroy, SharedOp.destroy,
          SharedOp.destroy] =
      1 + nCopies
        [SharedOp.copy, SharedOp.copy, SharedOp.destroy, SharedOp.destroy,
          SharedOp.destroy] ∧
    (0 < (runOps sharedCreate
        [SharedOp.copy, SharedOp.copy, SharedOp.destroy]).ref_count →
      (runOps sharedCreate
        [SharedOp.copy, SharedOp.copy, SharedOp.destroy]).teardowns = 0 ∧
      (runOps sharedCreate
        [SharedOp.copy, SharedOp.copy, SharedOp.destroy]).linked = true) :=
  ⟨by decide,
   ((C2_refcount_lifecycle).2.2.2.2.2.2
      [SharedOp.copy, SharedOp.copy, SharedOp.destroy, SharedOp.destroy,
        SharedOp.destroy] (by decide)).1,
   ((C2_refcount_lifecycle).2.2.2.2.2.2
      [SharedOp.copy, SharedOp.copy, SharedOp.destroy] (by decide)).2.2⟩

end SharedAllocator
